import Mathlib

set_option maxRecDepth 100000

/-!
Verification development for the Asana pre-commit hook
(src/asana-git-hook.py).  The Python source is shallowly embedded:
pure functions become Lean functions over List Char / String, the
process environment (env vars, git outputs, HTTP responses) is passed
explicitly, and fallible steps return Option.  Regular-expression
matching is embedded by hand for the three concrete patterns of
extract_task_ids, following CPython re semantics: scan positions left
to right, at each position try alternatives in written order with
backtracking, matches are non-overlapping, IGNORECASE folds ASCII
letters.  Fuel arguments equal to the scanned-list length keep all
recursions structural; the fuel is always sufficient because every
step consumes at least one character.
-/

namespace AsanaHook

/-- ASCII lower-casing, as used by IGNORECASE on the patterns at hand. -/
def lowerA (c : Char) : Char :=
  if 'A' ≤ c ∧ c ≤ 'Z' then Char.ofNat (c.toNat + 32) else c

/-- Python str.strip and regex \s whitespace set (ASCII part). -/
def isPyWs (c : Char) : Bool :=
  c == ' ' || c == '\t' || c == '\n' || c == '\r' || c == '\x0b' || c == '\x0c'

/-- Case-insensitive test that the (lowercase) pattern starts the text. -/
def ciStarts : List Char → List Char → Bool
  | [], _ => true
  | _ :: _, [] => false
  | p :: ps, c :: cs => (lowerA c == p) && ciStarts ps cs

/-- The capture group (\d{16}): exactly sixteen digits are consumed, with
no constraint on what follows (the source patterns have no boundary
after the group). -/
def grab16 (s : List Char) : Option (List Char) :=
  if (s.take 16).length == 16 && (s.take 16).all Char.isDigit then
    some (s.take 16)
  else none

/-- The regex fragment #?(\d{16}) with greedy backtracking: try with the
sigil first, then without.  Returns consumed length and the capture. -/
def tryHash (s : List Char) : Option (Nat × List Char) :=
  match s with
  | [] => (grab16 []).map (fun d => (16, d))
  | c :: r =>
    if c = '#' then
      match grab16 r with
      | some d => some (17, d)
      | none => (grab16 (c :: r)).map (fun d => (16, d))
    else (grab16 (c :: r)).map (fun d => (16, d))

/-- The regex fragment (?:asana:)?#?(\d{16}), greedy on the optional
asana: prefix. -/
def tryAsanaHash (s : List Char) : Option (Nat × List Char) :=
  if ciStarts "asana:".data s then
    match tryHash (s.drop 6) with
    | some p => some (6 + p.1, p.2)
    | none => tryHash s
  else tryHash s

/-- One keyword alternative of the first pattern: the keyword, then \s+
(maximal munch is faithful here because none of asana:, # or a digit is
whitespace), then the optional parts and the capture. -/
def tryKw (kw : List Char) (s : List Char) : Option (Nat × List Char) :=
  if ciStarts kw s then
    if ((s.drop kw.length).takeWhile isPyWs).length == 0 then none
    else
      match tryAsanaHash ((s.drop kw.length).drop ((s.drop kw.length).takeWhile isPyWs).length) with
      | some p => some (kw.length + ((s.drop kw.length).takeWhile isPyWs).length + p.1, p.2)
      | none => none
  else none

/-- The keyword alternation of the first source pattern, in its written
order. -/
def kwList : List (List Char) :=
  ["fixes", "closes", "resolves", "references", "refs", "re", "see", "addresses"].map String.data

/-- Try each keyword alternative in order, as regex alternation does. -/
def kwAlt : List (List Char) → List Char → Option (Nat × List Char)
  | [], _ => none
  | kw :: rest, s =>
    match tryKw kw s with
    | some p => some p
    | none => kwAlt rest s

/-- Pattern 1 of extract_task_ids:
(?:fixes|closes|resolves|references|refs|re|see|addresses)\s+(?:asana:)?#?(\d{16}). -/
def matchKwPat (s : List Char) : Option (Nat × List Char) :=
  kwAlt kwList s

/-- Pattern 2 of extract_task_ids: asana[:/](\d{16}). -/
def matchAsanaPat (s : List Char) : Option (Nat × List Char) :=
  if ciStarts "asana".data s then
    match s.drop 5 with
    | [] => none
    | c :: r =>
      if c = ':' ∨ c = '/' then (grab16 r).map (fun d => (22, d)) else none
  else none

/-- Pattern 3 of extract_task_ids: #(\d{16}). -/
def matchHashPat (s : List Char) : Option (Nat × List Char) :=
  match s with
  | [] => none
  | c :: r => if c = '#' then (grab16 r).map (fun d => (17, d)) else none

/-- re.finditer: successive non-overlapping leftmost matches; on a match
the scan resumes after it, otherwise at the next position.  The fuel,
instantiated with the list length, makes the recursion structural; it
never runs out because each step consumes at least one character. -/
def scanAux (m : List Char → Option (Nat × List Char)) : Nat → List Char → List (List Char)
  | 0, _ => []
  | fuel + 1, s =>
    match m s with
    | some p => p.2 :: scanAux m fuel (s.drop p.1)
    | none =>
      match s with
      | [] => []
      | _ :: rest => scanAux m fuel rest

/-- All captures of one pattern over the message, left to right. -/
def findAll (m : List Char → Option (Nat × List Char)) (s : List Char) : List String :=
  (scanAux m s.length s).map (fun d => String.mk d)

/-- Captures of the keyword pattern (pattern priority 1). -/
def captures1 (msg : String) : List String := findAll matchKwPat msg.data

/-- Captures of the asana[:/] pattern (pattern priority 2). -/
def captures2 (msg : String) : List String := findAll matchAsanaPat msg.data

/-- Captures of the bare # pattern (pattern priority 3). -/
def captures3 (msg : String) : List String := findAll matchHashPat msg.data

/-- Every group(1) capture, in the order the source loops produce them:
all matches of pattern 1, then of pattern 2, then of pattern 3. -/
def allCaptures (msg : String) : List String :=
  captures1 msg ++ captures2 msg ++ captures3 msg

/-- The body of the source loop: append task_id unless already present. -/
def insId (acc : List String) (id : String) : List String :=
  if id ∈ acc then acc else acc ++ [id]

/-- extract_task_ids (lines 44-67): first-occurrence de-duplication of
the captures across the three patterns. -/
def extract_task_ids (commit_msg : String) : List String :=
  (allCaptures commit_msg).foldl insId []

/-- Recursive form of the de-duplicating fold: the elements of the list
not already in the accumulator, each kept at its first occurrence, in
order.  Used to reason about the order of extract_task_ids. -/
def dedupNew : List String → List String → List String
  | _, [] => []
  | acc, x :: xs => if x ∈ acc then dedupNew acc xs else x :: dedupNew (acc ++ [x]) xs

/-- Python str.replace: replace every non-overlapping occurrence, left
to right.  Fuel-structural; fuel = length is sufficient since each step
consumes at least one character. -/
def replaceAllAux (pat rep : List Char) : Nat → List Char → List Char
  | 0, s => s
  | _ + 1, [] => []
  | fuel + 1, c :: rest =>
    if pat.isPrefixOf (c :: rest) then
      rep ++ replaceAllAux pat rep fuel (rest.drop (pat.length - 1))
    else c :: replaceAllAux pat rep fuel rest

/-- str.replace over a whole list. -/
def replaceAll (pat rep s : List Char) : List Char :=
  replaceAllAux pat rep s.length s

/-- The remote-URL cleanup of get_commit_info (lines 90-94): only when
the URL starts with git@ are all colons replaced by slashes, all git@
occurrences by https://, and a trailing .git stripped.  A URL that does
not start with git@ is returned untouched (the .git strip is nested
inside the SSH branch in the source). -/
def cleanRepoUrl (repo_url : String) : String :=
  if "git@".data.isPrefixOf repo_url.data then
    String.mk
      (let s2 := replaceAll "git@".data "https://".data (replaceAll ":".data "/".data repo_url.data)
       if ".git".data.isSuffixOf s2 then s2.take (s2.length - 4) else s2)
  else repo_url

/-- get_commit_info (lines 70-98): commit message, commit hash, and the
cleaned remote URL (or the sentinel when git config fails). -/
def get_commit_info (gitMsg gitHash : String) (remote : Option String) : String × String × String :=
  (gitMsg, gitHash,
    match remote with
    | some u => cleanRepoUrl u
    | none => "Not available")

/-- Python substring test (the in operator). -/
def containsSeq (pat : List Char) : List Char → Bool
  | [] => pat.isPrefixOf []
  | c :: rest => pat.isPrefixOf (c :: rest) || containsSeq pat rest

/-- The comment body built in add_comment_to_task (lines 110-120). -/
def composeComment (commit_hash commit_msg repo_url : String) : String :=
  if repo_url ≠ "Not available" then
    if containsSeq "github.com".data repo_url.data || containsSeq "gitlab.com".data repo_url.data then
      "Git commit registered:\n\n**Commit:** " ++ String.mk (commit_hash.data.take 8) ++
        "\n**Message:** " ++ commit_msg ++ "\n" ++
        "**Link:** [View commit](" ++ repo_url ++ "/commit/" ++ commit_hash ++ ")\n"
    else
      "Git commit registered:\n\n**Commit:** " ++ String.mk (commit_hash.data.take 8) ++
        "\n**Message:** " ++ commit_msg ++ "\n" ++
        "**Repository:** " ++ repo_url ++ "\n"
  else
    "Git commit registered:\n\n**Commit:** " ++ String.mk (commit_hash.data.take 8) ++
      "\n**Message:** " ++ commit_msg ++ "\n"

/-- The JSON body of an HTTP response: either response.json() raises
(parseError), or it yields an object whose errors key is absent (none)
or maps to a list of entries, each entry carrying an optional message
field. -/
inductive JsonBody where
  | parseError (msg : String)
  | payload (errors : Option (List (Option String)))
deriving DecidableEq

/-- Outcome of the requests.post call: a transport-level exception, or a
response with a status code and a JSON body. -/
inductive HttpResult where
  | exn (msg : String)
  | resp (status : Nat) (body : JsonBody)
deriving DecidableEq

/-- Per-task submission outcome; a failure carries the reported reason
(none models Python printing the value None for a message-less entry). -/
inductive SubmissionOutcome where
  | success
  | failure (reason : Option String)
deriving DecidableEq

/-- The response interpretation of add_comment_to_task (lines 130-141):
201 yields success (the body is never read); otherwise the reason is
errors-first-entry message, the Unknown error default when the errors
key is absent, or the caught IndexError text when the errors list is
empty; every exception (transport or JSON parse) is caught and yields a
failure with its description. -/
def storyOutcome : HttpResult → SubmissionOutcome
  | .exn e => .failure (some e)
  | .resp status body =>
    if status = 201 then .success
    else
      match body with
      | .parseError e => .failure (some e)
      | .payload none => .failure (some "Unknown error")
      | .payload (some []) => .failure (some "list index out of range")
      | .payload (some (m :: _)) => .failure m

/-- The boolean add_comment_to_task returns to main. -/
def addCommentResult (r : HttpResult) : Bool :=
  match storyOutcome r with
  | .success => true
  | .failure _ => false

/-- git config lookup of asana.token: subprocess failure gives none, and
an empty stripped output also fails the truthiness test. -/
def cfgLookup (cfgTok : Option String) : Option String :=
  match cfgTok with
  | some t => if t ≠ "" then some t else none
  | none => none

/-- get_asana_token (lines 20-41): environment variable first, then git
config; none models the sys.exit(1) path with its instructional
message. -/
def get_asana_token (envTok cfgTok : Option String) : Option String :=
  match envTok with
  | some t => if t ≠ "" then some t else cfgLookup cfgTok
  | none => cfgLookup cfgTok

/-- Python str.strip on the commit-message file contents. -/
def pyStrip (s : String) : String :=
  String.mk (((s.data.dropWhile isPyWs).reverse.dropWhile isPyWs).reverse)

/-- The ambient process environment of one run: token sources, the
optional commit-msg-file contents (present exactly when the flag is
given and the file exists), the git log outputs, the remote URL (none
when git config fails), and the HTTP outcome the API returns for each
task id. -/
structure MainEnv where
  envToken : Option String
  cfgToken : Option String
  commitMsgFile : Option String
  gitMsg : String
  gitHash : String
  remote : Option String
  respond : String → HttpResult

/-- Observable outcome of a run: the process exit code, the POST
requests actually issued (task id with composed comment), and whether
the instructional missing-token message was printed. -/
structure MainResult where
  exitCode : Nat
  apiRequests : List (String × String)
  tokenErrorShown : Bool
deriving DecidableEq

/-- Commit message main works on (lines 153-162). -/
def mainCommitMsg (env : MainEnv) : String :=
  match env.commitMsgFile with
  | some content => pyStrip content
  | none => (get_commit_info env.gitMsg env.gitHash env.remote).1

/-- Commit hash main works on: the literal placeholder in
commit-msg-file mode (line 159). -/
def mainCommitHash (env : MainEnv) : String :=
  match env.commitMsgFile with
  | some _ => "current commit"
  | none => (get_commit_info env.gitMsg env.gitHash env.remote).2.1

/-- The repo_url main passes to add_comment_to_task: re-fetched raw at
lines 171-178, overwriting the cleaned URL get_commit_info returned. -/
def mainRepoUrl (env : MainEnv) : String :=
  match env.remote with
  | some u => u
  | none => "Not available"

/-- The submission loop of main (lines 181-184): every id is attempted;
a False return only clears the success flag. -/
def runLoop (env : MainEnv) : Bool × List (String × String) :=
  (extract_task_ids (mainCommitMsg env)).foldl
    (fun acc id =>
      (acc.1 && addCommentResult (env.respond id),
       acc.2 ++ [(id, composeComment (mainCommitHash env) (mainCommitMsg env) (mainRepoUrl env))]))
    (true, [])

/-- main (lines 144-186).  With no ids the run returns 0 untouched.
Otherwise the first add_comment_to_task call resolves the token; a
missing token exits 1 there, before any POST.  With a token, every id
is submitted and the exit code aggregates the per-id booleans. -/
def runMain (env : MainEnv) : MainResult :=
  if extract_task_ids (mainCommitMsg env) = [] then ⟨0, [], false⟩
  else
    match get_asana_token env.envToken env.cfgToken with
    | none => ⟨1, [], true⟩
    | some _ =>
      ⟨if (runLoop env).1 then 0 else 1, (runLoop env).2, false⟩

/-- First-occurrence index in a list of ids (0 when absent is
irrelevant here: it is only used under membership hypotheses). -/
def idxOf (x : String) : List String → Nat
  | [] => 0
  | y :: ys => if y = x then 0 else idxOf x ys + 1

/-- Occurrence count of an id in a list. -/
def countOcc (x : String) : List String → Nat
  | [] => 0
  | y :: ys => (if y = x then 1 else 0) + countOcc x ys

/-- The worked example of the spec: SSH-style remote, post-commit mode,
a token in the environment, and an API that accepts the comment. -/
def envExample : MainEnv where
  envToken := some "token"
  cfgToken := none
  commitMsgFile := none
  gitMsg := "Fixes #1111111111111111"
  gitHash := "abcdef1234567890"
  remote := some "git@github.com:acme/widget.git"
  respond := fun _ => .resp 201 (.payload none)

/-- A post-commit run with two ids where the second submission fails. -/
def envTwoIds : MainEnv where
  envToken := some "tok"
  cfgToken := none
  commitMsgFile := none
  gitMsg := "Fixes #1111111111111111 and #2222222222222222"
  gitHash := "deadbeef"
  remote := some "https://example.org/r"
  respond := fun id =>
    if id = "1111111111111111" then .resp 201 (.payload none)
    else .resp 400 (.payload none)

/-- A tokenless invocation whose commit message holds no task id. -/
def envNoTokenNoIds : MainEnv where
  envToken := none
  cfgToken := none
  commitMsgFile := some "hello"
  gitMsg := ""
  gitHash := ""
  remote := none
  respond := fun _ => .exn "down"

/-- A tokenless invocation whose commit message holds one task id. -/
def envNoTokenOneId : MainEnv :=
  { envNoTokenNoIds with commitMsgFile := some "Fixes #1234567890123456" }

/-- A commit-msg-file (hook) invocation with two ids and a GitHub
remote, exercising the placeholder hash. -/
def envHookMode : MainEnv where
  envToken := some "t"
  cfgToken := none
  commitMsgFile := some "Fixes #1234567890123456 and #6543210987654321"
  gitMsg := "ignored"
  gitHash := "ignored"
  remote := some "https://github.com/acme/widget"
  respond := fun _ => .resp 201 (.payload none)

/-! Helper lemmas about the de-duplicating insertion fold. -/

theorem insId_of_mem {acc : List String} {y : String} (h : y ∈ acc) : insId acc y = acc :=
  if_pos h

theorem insId_of_not_mem {acc : List String} {y : String} (h : y ∉ acc) : insId acc y = acc ++ [y] :=
  if_neg h

theorem mem_insId {acc : List String} {y x : String} :
    x ∈ insId acc y ↔ x ∈ acc ∨ x = y := by
  by_cases h : y ∈ acc
  · rw [insId_of_mem h]
    constructor
    · exact Or.inl
    · intro hx
      rcases hx with h1 | h2
      · exact h1
      · subst h2; exact h
  · rw [insId_of_not_mem h]
    simp [List.mem_append]

theorem mem_foldl_insId : ∀ (l acc : List String) (x : String),
    x ∈ l.foldl insId acc ↔ x ∈ acc ∨ x ∈ l := by
  intro l
  induction l with
  | nil => intro acc x; simp
  | cons y ys ih =>
    intro acc x
    rw [List.foldl_cons, ih, mem_insId]
    simp only [List.mem_cons]
    tauto

theorem nodup_foldl_insId : ∀ (l acc : List String), acc.Nodup → (l.foldl insId acc).Nodup := by
  intro l
  induction l with
  | nil => intro acc h; exact h
  | cons y ys ih =>
    intro acc h
    rw [List.foldl_cons]
    apply ih
    by_cases hy : y ∈ acc
    · rw [insId_of_mem hy]; exact h
    · rw [insId_of_not_mem hy]
      exact h.append (List.nodup_singleton y) (List.disjoint_singleton.mpr hy)

theorem foldl_insId_ext : ∀ (l acc : List String), ∃ t, l.foldl insId acc = acc ++ t := by
  intro l
  induction l with
  | nil => intro acc; exact ⟨[], by simp⟩
  | cons y ys ih =>
    intro acc
    rw [List.foldl_cons]
    by_cases hy : y ∈ acc
    · rw [insId_of_mem hy]; exact ih acc
    · rw [insId_of_not_mem hy]
      obtain ⟨t, ht⟩ := ih (acc ++ [y])
      exact ⟨[y] ++ t, by rw [ht, List.append_assoc]⟩

/-! Helper lemmas about first-occurrence index and occurrence count. -/

theorem idxOf_lt_length {x : String} : ∀ {l : List String}, x ∈ l → idxOf x l < l.length := by
  intro l
  induction l with
  | nil => intro h; cases h
  | cons y ys ih =>
    intro h
    by_cases hy : y = x
    · simp [idxOf, hy]
    · have hmem : x ∈ ys := by
        rcases List.mem_cons.mp h with rfl | hm
        · exact absurd rfl hy
        · exact hm
      simp only [idxOf, if_neg hy, List.length_cons]
      exact Nat.succ_lt_succ (ih hmem)

theorem idxOf_append_left {x : String} : ∀ {l1 : List String} (l2 : List String),
    x ∈ l1 → idxOf x (l1 ++ l2) = idxOf x l1 := by
  intro l1
  induction l1 with
  | nil => intro l2 h; cases h
  | cons y ys ih =>
    intro l2 h
    by_cases hy : y = x
    · simp [idxOf, hy]
    · have hmem : x ∈ ys := by
        rcases List.mem_cons.mp h with rfl | hm
        · exact absurd rfl hy
        · exact hm
      simp only [List.cons_append, List.append_eq, idxOf, if_neg hy]
      rw [ih l2 hmem]

theorem idxOf_append_right {x : String} : ∀ {l1 : List String} (l2 : List String),
    x ∉ l1 → idxOf x (l1 ++ l2) = l1.length + idxOf x l2 := by
  intro l1
  induction l1 with
  | nil => intro l2 _; simp [idxOf]
  | cons y ys ih =>
    intro l2 h
    have hy : y ≠ x := fun he => h (List.mem_cons.mpr (Or.inl he.symm))
    have hys : x ∉ ys := fun hm => h (List.mem_cons.mpr (Or.inr hm))
    simp only [List.cons_append, List.append_eq, idxOf, if_neg hy, List.length_cons]
    rw [ih l2 hys]
    omega

theorem idxOf_cons_self (x : String) (l : List String) : idxOf x (x :: l) = 0 := by
  simp [idxOf]

theorem idxOf_cons_ne {y x : String} (h : y ≠ x) (l : List String) :
    idxOf x (y :: l) = idxOf x l + 1 := by
  simp [idxOf, h]

theorem foldl_insId_eq_dedupNew : ∀ (l acc : List String),
    l.foldl insId acc = acc ++ dedupNew acc l := by
  intro l
  induction l with
  | nil => intro acc; simp [dedupNew]
  | cons x xs ih =>
    intro acc
    rw [List.foldl_cons]
    by_cases hx : x ∈ acc
    · rw [insId_of_mem hx, ih acc]
      simp only [dedupNew, if_pos hx]
    · rw [insId_of_not_mem hx, ih (acc ++ [x])]
      simp only [dedupNew, if_neg hx]
      simp [List.append_assoc]

theorem dedupNew_order : ∀ (l acc : List String) (a b : String),
    a ∉ acc → b ∉ acc → a ∈ l → b ∈ l → a ≠ b →
    idxOf a l < idxOf b l →
    idxOf a (dedupNew acc l) < idxOf b (dedupNew acc l) := by
  intro l
  induction l with
  | nil => intro acc a b _ _ ha _ _ _; cases ha
  | cons x xs ih =>
    intro acc a b hana hbna ha hb hne hidx
    by_cases hx : x ∈ acc
    · have hax : a ≠ x := fun he => hana (by rw [he]; exact hx)
      have hbx : b ≠ x := fun he => hbna (by rw [he]; exact hx)
      have haxs : a ∈ xs := by
        rcases List.mem_cons.mp ha with h | h
        · exact absurd h hax
        · exact h
      have hbxs : b ∈ xs := by
        rcases List.mem_cons.mp hb with h | h
        · exact absurd h hbx
        · exact h
      have hidx2 : idxOf a xs < idxOf b xs := by
        rw [idxOf_cons_ne (Ne.symm hax) xs, idxOf_cons_ne (Ne.symm hbx) xs] at hidx
        omega
      simp only [dedupNew, if_pos hx]
      exact ih acc a b hana hbna haxs hbxs hne hidx2
    · simp only [dedupNew, if_neg hx]
      by_cases hax : a = x
      · subst hax
        rw [idxOf_cons_self, idxOf_cons_ne hne]
        exact Nat.succ_pos _
      · have hbx : b ≠ x := by
          intro he
          subst he
          rw [idxOf_cons_self] at hidx
          exact Nat.not_lt_zero _ hidx
        have haxs : a ∈ xs := by
          rcases List.mem_cons.mp ha with h | h
          · exact absurd h hax
          · exact h
        have hbxs : b ∈ xs := by
          rcases List.mem_cons.mp hb with h | h
          · exact absurd h hbx
          · exact h
        have hidx2 : idxOf a xs < idxOf b xs := by
          rw [idxOf_cons_ne (Ne.symm hax) xs, idxOf_cons_ne (Ne.symm hbx) xs] at hidx
          omega
        have hana2 : a ∉ acc ++ [x] := by
          intro hm
          rcases List.mem_append.mp hm with h | h
          · exact hana h
          · exact hax (List.mem_singleton.mp h)
        have hbna2 : b ∉ acc ++ [x] := by
          intro hm
          rcases List.mem_append.mp hm with h | h
          · exact hbna h
          · exact hbx (List.mem_singleton.mp h)
        rw [idxOf_cons_ne (Ne.symm hax), idxOf_cons_ne (Ne.symm hbx)]
        exact Nat.succ_lt_succ (ih (acc ++ [x]) a b hana2 hbna2 haxs hbxs hne hidx2)

theorem extract_eq_dedupNew (msg : String) :
    extract_task_ids msg = dedupNew [] (allCaptures msg) := by
  unfold extract_task_ids
  rw [foldl_insId_eq_dedupNew]
  simp

theorem extract_preserves_capture_order (msg : String) (a b : String)
    (ha : a ∈ allCaptures msg) (hb : b ∈ allCaptures msg) (hne : a ≠ b)
    (hidx : idxOf a (allCaptures msg) < idxOf b (allCaptures msg)) :
    idxOf a (extract_task_ids msg) < idxOf b (extract_task_ids msg) := by
  rw [extract_eq_dedupNew]
  exact dedupNew_order (allCaptures msg) [] a b (by simp) (by simp) ha hb hne hidx

theorem foldl_insId_idx (l acc : List String) (a b : String)
    (ha : a ∈ acc) (hb : b ∉ acc) :
    idxOf a (l.foldl insId acc) < idxOf b (l.foldl insId acc) := by
  obtain ⟨t, ht⟩ := foldl_insId_ext l acc
  rw [ht, idxOf_append_left t ha, idxOf_append_right t hb]
  have h1 : idxOf a acc < acc.length := idxOf_lt_length ha
  omega

theorem countOcc_of_not_mem (x : String) : ∀ (l : List String), x ∉ l → countOcc x l = 0 := by
  intro l
  induction l with
  | nil => intro _; rfl
  | cons y ys ih =>
    intro h
    have hy : y ≠ x := fun he => h (List.mem_cons.mpr (Or.inl he.symm))
    have hys : x ∉ ys := fun hm => h (List.mem_cons.mpr (Or.inr hm))
    simp only [countOcc, if_neg hy, ih hys]

theorem countOcc_eq_one (x : String) : ∀ (l : List String), l.Nodup → x ∈ l → countOcc x l = 1 := by
  intro l
  induction l with
  | nil => intro _ h; cases h
  | cons y ys ih =>
    intro hnd hm
    rcases List.mem_cons.mp hm with rfl | hmem
    · have hx : x ∉ ys := (List.nodup_cons.mp hnd).1
      simp [countOcc, countOcc_of_not_mem x ys hx]
    · have hy : y ≠ x := by
        rintro rfl
        exact (List.nodup_cons.mp hnd).1 hmem
      simp only [countOcc, if_neg hy]
      rw [ih (List.nodup_cons.mp hnd).2 hmem]

/-! Shape of every capture: exactly sixteen ASCII digits. -/

theorem grab16_shape : ∀ {s d : List Char}, grab16 s = some d →
    d.length = 16 ∧ d.all Char.isDigit = true := by
  intro s d h
  unfold grab16 at h
  split at h
  · next hc =>
    injection h with h1
    subst h1
    simp only [Bool.and_eq_true, beq_iff_eq] at hc
    exact hc
  · cases h

theorem grabMap_shape {t : List Char} {k : Nat} {p : Nat × List Char}
    (h : (grab16 t).map (fun d => (k, d)) = some p) :
    p.2.length = 16 ∧ p.2.all Char.isDigit = true := by
  cases hg : grab16 t with
  | none => rw [hg] at h; simp at h
  | some d =>
    rw [hg] at h
    simp only [Option.map_some'] at h
    injection h with h1
    subst h1
    exact grab16_shape hg

theorem tryHash_shape : ∀ {s : List Char} {p : Nat × List Char}, tryHash s = some p →
    p.2.length = 16 ∧ p.2.all Char.isDigit = true := by
  intro s p h
  unfold tryHash at h
  split at h
  · exact grabMap_shape h
  · split at h
    · split at h
      · next d hg =>
        injection h with h1
        subst h1
        exact grab16_shape hg
      · exact grabMap_shape h
    · exact grabMap_shape h

theorem tryAsanaHash_shape : ∀ {s : List Char} {p : Nat × List Char}, tryAsanaHash s = some p →
    p.2.length = 16 ∧ p.2.all Char.isDigit = true := by
  intro s p h
  unfold tryAsanaHash at h
  split at h
  · split at h
    · next q hq =>
      injection h with h1
      subst h1
      have hsh := tryHash_shape hq
      exact hsh
    · exact tryHash_shape h
  · exact tryHash_shape h

theorem tryKw_shape : ∀ {kw s : List Char} {p : Nat × List Char}, tryKw kw s = some p →
    p.2.length = 16 ∧ p.2.all Char.isDigit = true := by
  intro kw s p h
  unfold tryKw at h
  split at h
  · split at h
    · cases h
    · split at h
      · next q hq =>
        injection h with h1
        subst h1
        have hsh := tryAsanaHash_shape hq
        exact hsh
      · cases h
  · cases h

theorem kwAlt_shape : ∀ (kws : List (List Char)) {s : List Char} {p : Nat × List Char},
    kwAlt kws s = some p → p.2.length = 16 ∧ p.2.all Char.isDigit = true := by
  intro kws
  induction kws with
  | nil => intro s p h; cases h
  | cons kw rest ih =>
    intro s p h
    unfold kwAlt at h
    split at h
    · next q hq =>
      injection h with h1
      subst h1
      exact tryKw_shape hq
    · exact ih h

theorem matchKwPat_shape : ∀ {s : List Char} {p : Nat × List Char}, matchKwPat s = some p →
    p.2.length = 16 ∧ p.2.all Char.isDigit = true := by
  intro s p h
  exact kwAlt_shape kwList h

theorem matchAsanaPat_shape : ∀ {s : List Char} {p : Nat × List Char}, matchAsanaPat s = some p →
    p.2.length = 16 ∧ p.2.all Char.isDigit = true := by
  intro s p h
  unfold matchAsanaPat at h
  split at h
  · split at h
    · cases h
    · split at h
      · exact grabMap_shape h
      · cases h
  · cases h

theorem matchHashPat_shape : ∀ {s : List Char} {p : Nat × List Char}, matchHashPat s = some p →
    p.2.length = 16 ∧ p.2.all Char.isDigit = true := by
  intro s p h
  unfold matchHashPat at h
  split at h
  · cases h
  · split at h
    · exact grabMap_shape h
    · cases h

theorem scanAux_shape {P : List Char → Prop} {m : List Char → Option (Nat × List Char)}
    (hm : ∀ {s : List Char} {p : Nat × List Char}, m s = some p → P p.2) :
    ∀ (fuel : Nat) (s d : List Char), d ∈ scanAux m fuel s → P d := by
  intro fuel
  induction fuel with
  | zero => intro s d hd; simp [scanAux] at hd
  | succ k ih =>
    intro s d hd
    simp only [scanAux] at hd
    split at hd
    · next p heq =>
      rcases List.mem_cons.mp hd with rfl | hmem
      · exact hm heq
      · exact ih _ _ hmem
    · split at hd
      · cases hd
      · exact ih _ _ hd

theorem findAll_shape {m : List Char → Option (Nat × List Char)}
    (hm : ∀ {s : List Char} {p : Nat × List Char}, m s = some p →
      p.2.length = 16 ∧ p.2.all Char.isDigit = true) :
    ∀ (s : List Char) (id : String), id ∈ findAll m s →
      id.length = 16 ∧ id.data.all Char.isDigit = true := by
  intro s id h
  obtain ⟨d, hd, rfl⟩ := List.mem_map.mp h
  exact scanAux_shape (P := fun d => d.length = 16 ∧ d.all Char.isDigit = true) hm s.length s d hd

theorem allCaptures_shape : ∀ (msg : String) (id : String), id ∈ allCaptures msg →
    id.length = 16 ∧ id.data.all Char.isDigit = true := by
  intro msg id h
  unfold allCaptures captures1 captures2 captures3 at h
  rcases List.mem_append.mp h with h12 | h3
  · rcases List.mem_append.mp h12 with h1 | h2
    · exact findAll_shape (fun hq => matchKwPat_shape hq) msg.data id h1
    · exact findAll_shape (fun hq => matchAsanaPat_shape hq) msg.data id h2
  · exact findAll_shape (fun hq => matchHashPat_shape hq) msg.data id h3

/-! Helper lemmas about the run model. -/

theorem addCommentResult_eq_true : ∀ (r : HttpResult),
    addCommentResult r = true ↔ storyOutcome r = .success := by
  intro r
  unfold addCommentResult
  cases hso : storyOutcome r with
  | success => simp
  | failure reason => simp

theorem loopFold_eq (respond : String → HttpResult) (ch cm ru : String) :
    ∀ (l : List String) (b : Bool) (acc : List (String × String)),
      l.foldl (fun a id => (a.1 && addCommentResult (respond id),
          a.2 ++ [(id, composeComment ch cm ru)])) (b, acc)
        = (b && l.all (fun id => addCommentResult (respond id)),
           acc ++ l.map (fun id => (id, composeComment ch cm ru))) := by
  intro l
  induction l with
  | nil => intro b acc; simp
  | cons x xs ih =>
    intro b acc
    simp only [List.foldl_cons, List.all_cons, List.map_cons]
    rw [ih]
    simp [Bool.and_assoc]

theorem runLoop_fst (env : MainEnv) :
    (runLoop env).1
      = (extract_task_ids (mainCommitMsg env)).all (fun id => addCommentResult (env.respond id)) := by
  unfold runLoop
  rw [loopFold_eq]
  simp

theorem runLoop_snd (env : MainEnv) :
    (runLoop env).2
      = (extract_task_ids (mainCommitMsg env)).map
          (fun id => (id, composeComment (mainCommitHash env) (mainCommitMsg env) (mainRepoUrl env))) := by
  unfold runLoop
  rw [loopFold_eq]
  simp

theorem runMain_noIds (env : MainEnv) (hids : extract_task_ids (mainCommitMsg env) = []) :
    runMain env = ⟨0, [], false⟩ := by
  unfold runMain
  rw [if_pos hids]

theorem runMain_noToken (env : MainEnv)
    (hno : get_asana_token env.envToken env.cfgToken = none)
    (hids : extract_task_ids (mainCommitMsg env) ≠ []) :
    runMain env = ⟨1, [], true⟩ := by
  unfold runMain
  rw [if_neg hids, hno]

theorem runMain_token (env : MainEnv) (tok : String)
    (htok : get_asana_token env.envToken env.cfgToken = some tok)
    (hids : extract_task_ids (mainCommitMsg env) ≠ []) :
    runMain env = ⟨if (runLoop env).1 then 0 else 1, (runLoop env).2, false⟩ := by
  unfold runMain
  rw [if_neg hids, htok]

/-! The claims. -/

/-- C1: an identifier referenced several times, under any mix of the
recognized forms, is returned exactly once: the extractor output
counts every captured identifier once, and the worked example message
with a keyword reference and an asana: reference to the same id yields
the singleton list. -/
theorem c1_dedup_across_forms :
    (∀ (msg id : String), id ∈ allCaptures msg →
      countOcc id (extract_task_ids msg) = 1)
    ∧ extract_task_ids "Fixes #1234567890123456 and asana:1234567890123456"
        = ["1234567890123456"] := by
  constructor
  · intro msg id h
    apply countOcc_eq_one
    · exact nodup_foldl_insId (allCaptures msg) [] List.nodup_nil
    · exact (mem_foldl_insId (allCaptures msg) [] id).mpr (Or.inr h)
  · decide

/-- C1 witness: the example identifier is captured and hence counted
exactly once in the extractor output. -/
theorem c1_dedup_across_forms_witness :
    countOcc "1234567890123456"
      (extract_task_ids "Fixes #1234567890123456 and asana:1234567890123456") = 1 :=
  c1_dedup_across_forms.1 "Fixes #1234567890123456 and asana:1234567890123456"
    "1234567890123456" (by decide)

/-- C2: on the worked example of the spec, main passes the raw remote
URL to the comment composition (the cleaned URL computed by
get_commit_info is discarded by the re-fetch at lines 171-178), so the
posted comment links to git@github.com:acme/widget.git/commit/... and
not to the normalized https://github.com/acme/widget/commit/... that
the cleanup would have produced; the Commit line does show the 8-char
prefix. -/
theorem c2_raw_url_used :
    (runMain envExample).apiRequests =
      [("1111111111111111",
        "Git commit registered:\n\n**Commit:** abcdef12\n**Message:** Fixes #1111111111111111\n**Link:** [View commit](git@github.com:acme/widget.git/commit/abcdef1234567890)\n")]
    ∧ ((runMain envExample).apiRequests.all fun r =>
        containsSeq "**Commit:** abcdef12\n".data r.2.data &&
        containsSeq "(git@github.com:acme/widget.git/commit/abcdef1234567890)\n".data r.2.data &&
        !(containsSeq "https://github.com/acme/widget/commit/abcdef1234567890".data r.2.data)) = true
    ∧ (get_commit_info envExample.gitMsg envExample.gitHash envExample.remote).2.2
        = "https://github.com/acme/widget" :=
  ⟨by decide, by decide, by decide⟩

/-- C3: with a resolvable token, the run exits 0 iff no identifier was
extracted or every submission succeeded; with no identifiers no request
is issued at all; and one request is issued per extracted identifier
regardless of earlier failures. -/
theorem c3_aggregate_outcome (env : MainEnv) (tok : String)
    (htok : get_asana_token env.envToken env.cfgToken = some tok) :
    ((runMain env).exitCode = 0 ↔
      (extract_task_ids (mainCommitMsg env) = [] ∨
       ∀ id ∈ extract_task_ids (mainCommitMsg env),
         storyOutcome (env.respond id) = .success))
    ∧ (extract_task_ids (mainCommitMsg env) = [] → (runMain env).apiRequests = [])
    ∧ (runMain env).apiRequests.map Prod.fst = extract_task_ids (mainCommitMsg env) := by
  by_cases hids : extract_task_ids (mainCommitMsg env) = []
  · rw [runMain_noIds env hids]
    refine ⟨by simp [hids], fun _ => rfl, by simp [hids]⟩
  · rw [runMain_token env tok htok hids]
    refine ⟨?_, fun h => absurd h hids, ?_⟩
    · show (if (runLoop env).1 then 0 else 1) = 0 ↔ _
      rw [runLoop_fst]
      by_cases hall : (extract_task_ids (mainCommitMsg env)).all
          (fun id => addCommentResult (env.respond id)) = true
      · rw [if_pos hall]
        constructor
        · intro _
          right
          intro id hid
          exact (addCommentResult_eq_true (env.respond id)).mp (List.all_eq_true.mp hall id hid)
        · intro _; rfl
      · rw [if_neg hall]
        constructor
        · intro h; exact absurd h (by decide)
        · rintro (h | h)
          · exact absurd h hids
          · refine absurd ?_ hall
            exact List.all_eq_true.mpr fun id hid =>
              (addCommentResult_eq_true (env.respond id)).mpr (h id hid)
    · show (runLoop env).2.map Prod.fst = _
      rw [runLoop_snd]
      simp [List.map_map, Function.comp_def]

/-- C3 witness: a run with two identifiers where the second submission
fails: the aggregate equivalence, the empty-case implication, and the
one-request-per-identifier equation all instantiated. -/
theorem c3_aggregate_outcome_witness :
    ((runMain envTwoIds).exitCode = 0 ↔
      (extract_task_ids (mainCommitMsg envTwoIds) = [] ∨
       ∀ id ∈ extract_task_ids (mainCommitMsg envTwoIds),
         storyOutcome (envTwoIds.respond id) = .success))
    ∧ (extract_task_ids (mainCommitMsg envTwoIds) = [] → (runMain envTwoIds).apiRequests = [])
    ∧ (runMain envTwoIds).apiRequests.map Prod.fst = extract_task_ids (mainCommitMsg envTwoIds) :=
  c3_aggregate_outcome envTwoIds "tok" (by decide)

/-- C4 counterexample: a non-201 response whose errors array is present
but empty does not produce the generic unknown-error reason: the
IndexError on the first-entry access is caught by the blanket except
and its description becomes the reason. -/
theorem c4_empty_errors_counterexample :
    storyOutcome (.resp 400 (.payload (some []))) = .failure (some "list index out of range")
    ∧ storyOutcome (.resp 400 (.payload (some []))) ≠ .failure (some "Unknown error") :=
  ⟨by decide, by decide⟩

/-- C4 amended: 201 always yields success (the body is never read); any
other status yields a failure, whose reason is the first errors-entry
message when the array is nonempty, the generic Unknown error default
when the errors key is absent, the caught IndexError description when
the errors array is present but empty, and the caught exception
description for transport or JSON-parse failures; the interpretation is
total, so it never raises to the caller. -/
theorem c4_submitter_outcomes :
    (∀ body, storyOutcome (.resp 201 body) = .success)
    ∧ (∀ (st : Nat) (body : JsonBody), st ≠ 201 →
        ∃ reason, storyOutcome (.resp st body) = .failure reason)
    ∧ (∀ (st : Nat) (m : Option String) (rest : List (Option String)), st ≠ 201 →
        storyOutcome (.resp st (.payload (some (m :: rest)))) = .failure m)
    ∧ (∀ st : Nat, st ≠ 201 →
        storyOutcome (.resp st (.payload none)) = .failure (some "Unknown error"))
    ∧ (∀ st : Nat, st ≠ 201 →
        storyOutcome (.resp st (.payload (some []))) = .failure (some "list index out of range"))
    ∧ (∀ (st : Nat) (e : String), st ≠ 201 →
        storyOutcome (.resp st (.parseError e)) = .failure (some e))
    ∧ (∀ e : String, storyOutcome (.exn e) = .failure (some e))
    ∧ (∀ r : HttpResult, storyOutcome r = .success ∨
        ∃ reason, storyOutcome r = .failure reason) := by
  refine ⟨?_, ?_, ?_, ?_, ?_, ?_, ?_, ?_⟩
  · intro body; simp [storyOutcome]
  · intro st body h
    cases body with
    | parseError e => exact ⟨some e, by simp [storyOutcome, h]⟩
    | payload errs =>
      cases errs with
      | none => exact ⟨some "Unknown error", by simp [storyOutcome, h]⟩
      | some l =>
        cases l with
        | nil => exact ⟨some "list index out of range", by simp [storyOutcome, h]⟩
        | cons m rest => exact ⟨m, by simp [storyOutcome, h]⟩
  · intro st m rest h; simp [storyOutcome, h]
  · intro st h; simp [storyOutcome, h]
  · intro st h; simp [storyOutcome, h]
  · intro st e h; simp [storyOutcome, h]
  · intro e; rfl
  · intro r
    cases hso : storyOutcome r with
    | success => exact Or.inl rfl
    | failure reason => exact Or.inr ⟨reason, rfl⟩

/-- C4 witness: the first-entry reason and the absent-key default, both
at status 400. -/
theorem c4_submitter_outcomes_witness :
    storyOutcome (.resp 400 (.payload (some [some "boom"]))) = .failure (some "boom")
    ∧ storyOutcome (.resp 400 (.payload none)) = .failure (some "Unknown error") :=
  ⟨c4_submitter_outcomes.2.2.1 400 (some "boom") [] (by decide),
   c4_submitter_outcomes.2.2.2.1 400 (by decide)⟩

/-- C5 counterexample: a 17-digit run after the sigil is matched, its
first 16 digits are captured, so the extractor does not return the
empty list on it. -/
theorem c5_seventeen_digits_counterexample :
    extract_task_ids "#12345678901234567" = ["1234567890123456"]
    ∧ extract_task_ids "#12345678901234567" ≠ [] :=
  ⟨by decide, by decide⟩

/-- C5 amended: every extracted identifier is exactly sixteen digits, so
a run shorter than sixteen digits is never extracted; but the patterns
have no boundary after the capture group, so a longer digit run is
matched through its first sixteen digits, as the two concrete messages
show. -/
theorem c5_sixteen_digit_shape :
    (∀ (msg id : String), id ∈ extract_task_ids msg →
      id.length = 16 ∧ id.data.all Char.isDigit = true)
    ∧ extract_task_ids "#123456789012345" = []
    ∧ extract_task_ids "#12345678901234567" = ["1234567890123456"] := by
  refine ⟨?_, by decide, by decide⟩
  intro msg id h
  have hmem : id ∈ allCaptures msg := by
    rcases (mem_foldl_insId (allCaptures msg) [] id).mp h with h0 | h1
    · cases h0
    · exact h1
  exact allCaptures_shape msg id hmem

/-- C5 witness: the shape of the identifier extracted from the 17-digit
message. -/
theorem c5_sixteen_digit_shape_witness :
    "1234567890123456".length = 16 ∧ "1234567890123456".data.all Char.isDigit = true :=
  c5_sixteen_digit_shape.1 "#12345678901234567" "1234567890123456" (by decide)

/-- C6 counterexample: two distinct identifiers where the bare-sigil one
appears first in the text but is matched only by the third pattern: the
extractor returns the keyword-matched one first, not the order of first
appearance in the message. -/
theorem c6_text_order_counterexample :
    extract_task_ids "#1111111111111111 fixes 2222222222222222"
      = ["2222222222222222", "1111111111111111"]
    ∧ extract_task_ids "#1111111111111111 fixes 2222222222222222"
      ≠ ["1111111111111111", "2222222222222222"] :=
  ⟨by decide, by decide⟩

/-- C6 amended: every captured identifier is returned, and the output
order is the order of first capture in the pattern-major capture
sequence (all pattern-1 captures in match order, then pattern 2, then
pattern 3): first-capture order is preserved in general; in particular
an identifier captured by pattern 1 precedes one captured only by
patterns 2 or 3, an identifier captured by pattern 1 or 2 precedes one
captured only by pattern 3, and first-capture (text) position orders
identifiers within each pattern; two concrete messages show the
pattern-major order beating text order in both directions. -/
theorem c6_pattern_major_order :
    (∀ (msg a : String), a ∈ allCaptures msg → a ∈ extract_task_ids msg)
    ∧ (∀ (msg a b : String), a ∈ allCaptures msg → b ∈ allCaptures msg → a ≠ b →
        idxOf a (allCaptures msg) < idxOf b (allCaptures msg) →
        idxOf a (extract_task_ids msg) < idxOf b (extract_task_ids msg))
    ∧ (∀ (msg a b : String), a ∈ captures1 msg → b ∉ captures1 msg →
        b ∈ captures2 msg ++ captures3 msg →
        idxOf a (extract_task_ids msg) < idxOf b (extract_task_ids msg))
    ∧ (∀ (msg a b : String), a ∈ captures1 msg ++ captures2 msg →
        b ∉ captures1 msg ++ captures2 msg → b ∈ captures3 msg →
        idxOf a (extract_task_ids msg) < idxOf b (extract_task_ids msg))
    ∧ (∀ (msg a b : String), a ∈ captures1 msg → b ∈ captures1 msg → a ≠ b →
        idxOf a (captures1 msg) < idxOf b (captures1 msg) →
        idxOf a (extract_task_ids msg) < idxOf b (extract_task_ids msg))
    ∧ (∀ (msg a b : String), a ∉ captures1 msg → b ∉ captures1 msg →
        a ∈ captures2 msg → b ∈ captures2 msg → a ≠ b →
        idxOf a (captures2 msg) < idxOf b (captures2 msg) →
        idxOf a (extract_task_ids msg) < idxOf b (extract_task_ids msg))
    ∧ (∀ (msg a b : String), a ∉ captures1 msg ++ captures2 msg →
        b ∉ captures1 msg ++ captures2 msg →
        a ∈ captures3 msg → b ∈ captures3 msg → a ≠ b →
        idxOf a (captures3 msg) < idxOf b (captures3 msg) →
        idxOf a (extract_task_ids msg) < idxOf b (extract_task_ids msg))
    ∧ extract_task_ids "fixes 1111111111111111 and fixes 2222222222222222"
        = ["1111111111111111", "2222222222222222"]
    ∧ extract_task_ids "#1111111111111111 fixes 2222222222222222"
        = ["2222222222222222", "1111111111111111"]
    ∧ extract_task_ids "#2222222222222222 and asana:1111111111111111"
        = ["1111111111111111", "2222222222222222"] := by
  refine ⟨?_, ?_, ?_, ?_, ?_, ?_, ?_, by decide, by decide, by decide⟩
  · intro msg a ha
    exact (mem_foldl_insId (allCaptures msg) [] a).mpr (Or.inr ha)
  · intro msg a b ha hb hne hidx
    exact extract_preserves_capture_order msg a b ha hb hne hidx
  · intro msg a b ha hb1 hb23
    have hsplit : extract_task_ids msg
        = (captures2 msg ++ captures3 msg).foldl insId ((captures1 msg).foldl insId []) := by
      unfold extract_task_ids allCaptures
      rw [List.append_assoc, List.foldl_append]
    rw [hsplit]
    apply foldl_insId_idx
    · exact (mem_foldl_insId (captures1 msg) [] a).mpr (Or.inr ha)
    · intro hbL1
      rcases (mem_foldl_insId (captures1 msg) [] b).mp hbL1 with h | h
      · cases h
      · exact hb1 h
  · intro msg a b ha12 hb12 hb3
    have hsplit : extract_task_ids msg
        = (captures3 msg).foldl insId ((captures1 msg ++ captures2 msg).foldl insId []) := by
      unfold extract_task_ids allCaptures
      rw [List.foldl_append]
    rw [hsplit]
    apply foldl_insId_idx
    · exact (mem_foldl_insId (captures1 msg ++ captures2 msg) [] a).mpr (Or.inr ha12)
    · intro hbL
      rcases (mem_foldl_insId (captures1 msg ++ captures2 msg) [] b).mp hbL with h | h
      · cases h
      · exact hb12 h
  · intro msg a b ha hb hne hidx
    have haAll : a ∈ allCaptures msg := by
      unfold allCaptures
      exact List.mem_append.mpr (Or.inl (List.mem_append.mpr (Or.inl ha)))
    have hbAll : b ∈ allCaptures msg := by
      unfold allCaptures
      exact List.mem_append.mpr (Or.inl (List.mem_append.mpr (Or.inl hb)))
    apply extract_preserves_capture_order msg a b haAll hbAll hne
    have hidxa : idxOf a (allCaptures msg) = idxOf a (captures1 msg) := by
      unfold allCaptures
      rw [idxOf_append_left (captures3 msg) (List.mem_append.mpr (Or.inl ha)),
        idxOf_append_left (captures2 msg) ha]
    have hidxb : idxOf b (allCaptures msg) = idxOf b (captures1 msg) := by
      unfold allCaptures
      rw [idxOf_append_left (captures3 msg) (List.mem_append.mpr (Or.inl hb)),
        idxOf_append_left (captures2 msg) hb]
    rw [hidxa, hidxb]
    exact hidx
  · intro msg a b ha1 hb1 ha2 hb2 hne hidx
    have haAll : a ∈ allCaptures msg := by
      unfold allCaptures
      exact List.mem_append.mpr (Or.inl (List.mem_append.mpr (Or.inr ha2)))
    have hbAll : b ∈ allCaptures msg := by
      unfold allCaptures
      exact List.mem_append.mpr (Or.inl (List.mem_append.mpr (Or.inr hb2)))
    apply extract_preserves_capture_order msg a b haAll hbAll hne
    have hidxa : idxOf a (allCaptures msg)
        = (captures1 msg).length + idxOf a (captures2 msg) := by
      unfold allCaptures
      rw [idxOf_append_left (captures3 msg) (List.mem_append.mpr (Or.inr ha2)),
        idxOf_append_right (captures2 msg) ha1]
    have hidxb : idxOf b (allCaptures msg)
        = (captures1 msg).length + idxOf b (captures2 msg) := by
      unfold allCaptures
      rw [idxOf_append_left (captures3 msg) (List.mem_append.mpr (Or.inr hb2)),
        idxOf_append_right (captures2 msg) hb1]
    rw [hidxa, hidxb]
    omega
  · intro msg a b ha12 hb12 ha3 hb3 hne hidx
    have haAll : a ∈ allCaptures msg := by
      unfold allCaptures
      exact List.mem_append.mpr (Or.inr ha3)
    have hbAll : b ∈ allCaptures msg := by
      unfold allCaptures
      exact List.mem_append.mpr (Or.inr hb3)
    apply extract_preserves_capture_order msg a b haAll hbAll hne
    have hidxa : idxOf a (allCaptures msg)
        = (captures1 msg ++ captures2 msg).length + idxOf a (captures3 msg) := by
      unfold allCaptures
      rw [idxOf_append_right (captures3 msg) ha12]
    have hidxb : idxOf b (allCaptures msg)
        = (captures1 msg ++ captures2 msg).length + idxOf b (captures3 msg) := by
      unfold allCaptures
      rw [idxOf_append_right (captures3 msg) hb12]
    rw [hidxa, hidxb]
    omega

/-- C6 witness: the cross-pattern ordering facts instantiated on the
counterexample message (pattern 1 before pattern 3) and on the
pattern-2-versus-pattern-3 message, through the amended theorem. -/
theorem c6_pattern_major_order_witness :
    idxOf "2222222222222222" (extract_task_ids "#1111111111111111 fixes 2222222222222222")
      < idxOf "1111111111111111" (extract_task_ids "#1111111111111111 fixes 2222222222222222")
    ∧ idxOf "1111111111111111" (extract_task_ids "#2222222222222222 and asana:1111111111111111")
      < idxOf "2222222222222222" (extract_task_ids "#2222222222222222 and asana:1111111111111111") :=
  ⟨c6_pattern_major_order.2.2.1 "#1111111111111111 fixes 2222222222222222"
      "2222222222222222" "1111111111111111" (by decide) (by decide) (by decide),
   c6_pattern_major_order.2.2.2.1 "#2222222222222222 and asana:1111111111111111"
      "1111111111111111" "2222222222222222" (by decide) (by decide) (by decide)⟩

/-- C7 counterexample: a non-SSH URL ending in .git passes through the
cleanup untouched; the trailing suffix is not stripped, because the
strip is nested inside the git@ branch. -/
theorem c7_non_ssh_git_counterexample :
    cleanRepoUrl "https://host/owner/repo.git" = "https://host/owner/repo.git"
    ∧ cleanRepoUrl "https://host/owner/repo.git" ≠ "https://host/owner/repo" :=
  ⟨by decide, by decide⟩

/-- C7 amended: the SSH form is rewritten to the https form with the
trailing .git stripped, an https URL is returned unchanged, and in fact
every URL that does not start with git@ passes through entirely
unchanged, a trailing .git included; re-normalizing the rewritten
example is the identity. -/
theorem c7_url_cleanup :
    cleanRepoUrl "git@host:owner/repo.git" = "https://host/owner/repo"
    ∧ cleanRepoUrl "https://host/owner/repo" = "https://host/owner/repo"
    ∧ (∀ u : String, "git@".data.isPrefixOf u.data = false → cleanRepoUrl u = u)
    ∧ cleanRepoUrl "https://host/owner/repo.git" = "https://host/owner/repo.git"
    ∧ cleanRepoUrl (cleanRepoUrl "git@host:owner/repo.git")
        = cleanRepoUrl "git@host:owner/repo.git" := by
  refine ⟨by decide, by decide, ?_, by decide, by decide⟩
  intro u h
  simp [cleanRepoUrl, h]

/-- C7 witness: the pass-through fact applied at a plain http URL. -/
theorem c7_url_cleanup_witness :
    cleanRepoUrl "http://example.org/x" = "http://example.org/x" :=
  c7_url_cleanup.2.2.1 "http://example.org/x" (by decide)

/-- C8 counterexample: a tokenless invocation whose message has no task
id terminates with exit 0 and no instructional message: the missing
credential does not abort the run before extraction, because the token
is only resolved inside the first submission attempt. -/
theorem c8_no_abort_counterexample :
    runMain envNoTokenNoIds = ⟨0, [], false⟩
    ∧ get_asana_token envNoTokenNoIds.envToken envNoTokenNoIds.cfgToken = none :=
  ⟨by decide, by decide⟩

/-- C8 amended: with no resolvable token, extraction still runs first;
if it found identifiers the run exits 1 with the instructional message
at the first submission attempt and no API request is ever issued, and
if it found none the run exits 0 without any credential check or
message. -/
theorem c8_lazy_token_check (env : MainEnv)
    (hno : get_asana_token env.envToken env.cfgToken = none) :
    (extract_task_ids (mainCommitMsg env) ≠ [] → runMain env = ⟨1, [], true⟩)
    ∧ (extract_task_ids (mainCommitMsg env) = [] → runMain env = ⟨0, [], false⟩) := by
  constructor
  · intro hids
    exact runMain_noToken env hno hids
  · intro hids
    exact runMain_noIds env hids

/-- C8 witness: both branches of the amended claim at concrete
tokenless environments. -/
theorem c8_lazy_token_check_witness :
    runMain envNoTokenOneId = ⟨1, [], true⟩
    ∧ runMain envNoTokenNoIds = ⟨0, [], false⟩ :=
  ⟨(c8_lazy_token_check envNoTokenOneId (by decide)).1 (by decide),
   (c8_lazy_token_check envNoTokenNoIds (by decide)).2 (by decide)⟩

/-- C9: the keyword alternation is matched without word boundaries, so
the re alternative fires on the tail of the word score and the bare
16-digit token is extracted even though the message has no standalone
keyword, no sigil and no asana marker (the other two patterns capture
nothing). -/
theorem c9_keyword_substring_match :
    extract_task_ids "score 1234567890123456" = ["1234567890123456"]
    ∧ captures2 "score 1234567890123456" = []
    ∧ captures3 "score 1234567890123456" = [] :=
  ⟨by decide, by decide, by decide⟩

/-- C10: in commit-msg-file mode every issued request is composed with
the literal placeholder hash, so each comment carries the Commit line
with its first 8 characters and, with a known host, a link ending in
the placeholder; shown generally and on a concrete two-identifier hook
run. -/
theorem c10_placeholder_hash :
    (∀ (env : MainEnv) (c : String), env.commitMsgFile = some c →
      ∀ r ∈ (runMain env).apiRequests,
        r.2 = composeComment "current commit" (pyStrip c) (mainRepoUrl env))
    ∧ (runMain envHookMode).apiRequests.map Prod.fst
        = ["1234567890123456", "6543210987654321"]
    ∧ ((runMain envHookMode).apiRequests.all fun r =>
        containsSeq "**Commit:** current \n".data r.2.data &&
        containsSeq "/commit/current commit)".data r.2.data) = true := by
  refine ⟨?_, by decide, by decide⟩
  intro env c hc r hr
  by_cases hids : extract_task_ids (mainCommitMsg env) = []
  · rw [runMain_noIds env hids] at hr
    simp at hr
  · cases htok : get_asana_token env.envToken env.cfgToken with
    | none =>
      rw [runMain_noToken env htok hids] at hr
      simp at hr
    | some tok =>
      rw [runMain_token env tok htok hids] at hr
      have hr2 : r ∈ (runLoop env).2 := hr
      rw [runLoop_snd env] at hr2
      obtain ⟨id, hid, rfl⟩ := List.mem_map.mp hr2
      have hhash : mainCommitHash env = "current commit" := by
        simp [mainCommitHash, hc]
      have hmsg : mainCommitMsg env = pyStrip c := by
        simp [mainCommitMsg, hc]
      simp [hhash, hmsg]

/-- C10 witness: the head request of the concrete hook run is composed
with the placeholder hash. -/
theorem c10_placeholder_hash_witness :
    ((runMain envHookMode).apiRequests.headD ("", "")).2
      = composeComment "current commit"
          (pyStrip "Fixes #1234567890123456 and #6543210987654321")
          (mainRepoUrl envHookMode) :=
  c10_placeholder_hash.1 envHookMode _ rfl _ (by decide)

end AsanaHook
